import Mathlib

/-!
Verification development for the LLM-chatbot repository: a manual question-answering
system with a React/TypeScript viewer front end (frontend/src, the SupportAssistant
component and its config) and a hybrid-retrieval answer pipeline.

The front-end state machine below is embedded directly from the source
(SupportAssistant in the frontend TypeScript file).  JavaScript numbers that the
source only ever uses as page counts and page indices are modelled as `Int`
(with `Option Int` for values that may be `undefined`), and JavaScript
truthiness of a number (`0`, `NaN`, `undefined` are falsy) is modelled
explicitly by the `jsTruthy`/`jsOr` helpers.
-/

namespace Chatbot

/-- JavaScript truthiness of a possibly-missing integer value:
`undefined` and `0` are falsy, every other integer is truthy. -/
def jsTruthy : Option Int → Bool
  | none => false
  | some n => n != 0

/-- JavaScript `a || d` for a possibly-missing integer `a`:
returns `d` when `a` is falsy (`undefined` or `0`), else the value of `a`. -/
def jsOr (a : Option Int) (d : Int) : Int :=
  match a with
  | none => d
  | some n => if n = 0 then d else n

/-- UI-facing citation as typed in the front end: `{ page: number; ... }`. -/
structure FCitation where
  page : Int
  product : Option String
  score : Option Int
deriving DecidableEq, Repr

/-- UI-facing manual section as typed in the front end. -/
structure FSection where
  page : Int
  product : Option String
  score : Option Int
  snippet : Option String
  full : Option String
deriving DecidableEq, Repr

/-- The SupportAssistant component state relevant to the verified behaviour:
the PDF viewer page state and the Q&A state hooks. -/
structure UIState where
  pageNumber : Int
  numPages : Option Int
  query : String
  pdfUrl : String
  loading : Bool
  answer : String
  citations : List FCitation
  sections : List FSection
  askError : String
deriving DecidableEq, Repr

/-- Clicking a citation in the "Cited pages" list:
`setPageNumber(Math.max(1, c.page || 1))`. -/
def clickCitation (s : UIState) (p : Int) : UIState :=
  { s with pageNumber := max 1 (jsOr (some p) 1) }

/-- Clicking a page link in the "Key manual sections" list:
`setPageNumber(Math.max(1, s.page || 1))`. -/
def clickSection (s : UIState) (p : Int) : UIState :=
  { s with pageNumber := max 1 (jsOr (some p) 1) }

/-- The Prev button's `disabled` condition: `pageNumber <= 1`. -/
def prevDisabled (s : UIState) : Prop := s.pageNumber ≤ 1

instance (s : UIState) : Decidable (prevDisabled s) := by
  unfold prevDisabled; infer_instance

/-- The Next button's `disabled` condition:
`!numPages || pageNumber >= (numPages || 1)`. -/
def nextDisabled (s : UIState) : Prop :=
  jsTruthy s.numPages = false ∨ jsOr s.numPages 1 ≤ s.pageNumber

instance (s : UIState) : Decidable (nextDisabled s) := by
  unfold nextDisabled; infer_instance

/-- Clicking Prev: when enabled, `setPageNumber(p => Math.max(1, p - 1))`. -/
def clickPrev (s : UIState) : UIState :=
  if prevDisabled s then s
  else { s with pageNumber := max 1 (s.pageNumber - 1) }

/-- Clicking Next: when enabled,
`setPageNumber(p => Math.min(numPages || p, p + 1))`. -/
def clickNext (s : UIState) : UIState :=
  if nextDisabled s then s
  else { s with pageNumber := min (jsOr s.numPages s.pageNumber) (s.pageNumber + 1) }

/-- First element of a possibly-missing array of possibly-missing integers,
as JavaScript `xs && xs[0]` / `xs && xs[0]?.page` evaluates it: `undefined`
when the array is missing, empty, or the entry itself has no numeric value. -/
def firstVal (x : Option (List (Option Int))) : Option Int :=
  match x with
  | none => none
  | some l =>
    match l.head? with
    | none => none
    | some v => v

/-- The page-jump computation at the end of a successful ask response:
`jump = (Array.isArray(top_pages) && top_pages[0]) || (citations && citations[0]?.page) || 1`
followed by `Math.max(1, Number(jump) || 1)`.  `tp` is `data.top_pages`
(`none` when absent or not an array) and `cits` the list of
`citations[*].page` values. -/
def jumpVal (a b : Option Int) : Int :=
  max 1 (jsOr (if jsTruthy a then a else if jsTruthy b then b else some 1) 1)

def jumpPage (tp cits : Option (List (Option Int))) : Int :=
  jumpVal (firstVal tp) (firstVal cits)

/-- The Ask button's `disabled` condition: `!query.trim() || !pdfUrl || loading`.
JavaScript `trim` is modelled by dropping leading and trailing whitespace. -/
def jsTrim (s : String) : String :=
  ⟨((s.data.dropWhile Char.isWhitespace).reverse.dropWhile Char.isWhitespace).reverse⟩

/-- Whether the Ask button is disabled. -/
def askDisabled (s : UIState) : Prop :=
  jsTrim s.query = "" ∨ s.pdfUrl = "" ∨ s.loading = true

instance (s : UIState) : Decidable (askDisabled s) := by
  unfold askDisabled; infer_instance

/-- The synchronous prefix of `handleAsk` (everything before the `fetch`):
clears the error, sets loading, and clears the previous answer, citations
and sections. -/
def beginAsk (s : UIState) : UIState :=
  { s with askError := "", loading := true, answer := "", citations := [], sections := [] }

/-- Clicking Ask: a disabled button fires no handler, so the state is
unchanged; otherwise `handleAsk` runs and its synchronous prefix is
`beginAsk`. -/
def clickAsk (s : UIState) : UIState :=
  if askDisabled s then s else beginAsk s

/-!
## The retrieval and answer pipeline

The hybrid retriever, context builder, answer synthesizer and metadata
resolver are the conceptual core this repository depends on; their code is
not among the given source files, so they are modelled from the
specification.  Backend relevance scores are modelled as rationals, chunk
and page identifiers as naturals.
-/

/-- Modelled from the spec: an indexed `Chunk` of a manual (the backend data
model, absent from the given source files) — chunk id, owning manual,
source page and text.  The embedding vector plays no role in the verified
properties and is omitted. -/
structure Chunk where
  chunk_id : Nat
  manual_id : String
  page : Nat
  text : String
deriving DecidableEq, Repr

/-- The set (as a list) of pages actually indexed for a manual: the pages of
the chunks stored under that `manual_id`. -/
def indexedPages (chunks : List Chunk) (mid : String) : List Nat :=
  (chunks.filter (fun c => c.manual_id = mid)).map (fun c => c.page)

/-- Modelled from the spec: an ephemeral per-query `RetrievalHit` produced by
one backend (the backend code is absent from the given source files). -/
structure RetrievalHit where
  chunk_id : Nat
  manual_id : String
  page : Nat
  score : ℚ
  text : String
deriving DecidableEq, Repr

/-- Minimum of a list of scores (0 for the empty list, which never reaches a
normalization step). -/
def listMin : List ℚ → ℚ
  | [] => 0
  | [a] => a
  | a :: b :: t => min a (listMin (b :: t))

/-- Maximum of a list of scores (0 for the empty list: a page absent from one
backend contributes 0 for that side, per the spec). -/
def listMax : List ℚ → ℚ
  | [] => 0
  | [a] => a
  | a :: b :: t => max a (listMax (b :: t))

/-- Min-max normalization of one score given the backend result set's min and
max; a degenerate result set (all scores equal) normalizes to 1. -/
def normFun (lo hi x : ℚ) : ℚ :=
  if hi = lo then 1 else (x - lo) / (hi - lo)

/-- Modelled from the spec: min-max normalization of a backend result set's
scores to `[0,1]` (Hybrid Retriever step 2; code absent from the given
source files). -/
def normalizeHits (hits : List RetrievalHit) : List RetrievalHit :=
  hits.map (fun h =>
    { h with
      score := normFun (listMin (hits.map (fun x => x.score)))
        (listMax (hits.map (fun x => x.score))) h.score })

/-- Best (maximal) score among a hit list's hits for a given page; 0 when the
page is absent. -/
def bestScoreAt (p : Nat) (hits : List RetrievalHit) : ℚ :=
  listMax ((hits.filter (fun h => h.page = p)).map (fun h => h.score))

/-- Text of the first hit carrying the maximal score of the list (the
"winning chunk"); empty for an empty list. -/
def firstMaxText (l : List RetrievalHit) : String :=
  match l.find? (fun h => h.score == listMax (l.map (fun x => x.score))) with
  | some h => h.text
  | none => ""

/-- Leading excerpt of a winning chunk's text. -/
def snippetOf (t : String) : String := ⟨t.data.take 160⟩

/-- Modelled from the spec: a `FusedCandidate`, one per distinct page
surviving deduplication (code absent from the given source files). -/
structure FusedCandidate where
  page : Nat
  product : Option String
  score : ℚ
  snippet : String
  full_text : String
deriving DecidableEq, Repr

/-- The ranking order on fused candidates: fused score descending, ties by
ascending page number. -/
def candLE (a b : FusedCandidate) : Prop :=
  b.score < a.score ∨ (a.score = b.score ∧ a.page ≤ b.page)

instance : DecidableRel candLE := fun a b => by
  unfold candLE; infer_instance

instance : IsTotal FusedCandidate candLE := by
  constructor
  intro a b
  rcases lt_trichotomy a.score b.score with h | h | h
  · right; left; exact h
  · rcases Nat.le_total a.page b.page with hp | hp
    · left; right; exact ⟨h, hp⟩
    · right; right; exact ⟨h.symm, hp⟩
  · left; left; exact h

instance : IsTrans FusedCandidate candLE := by
  constructor
  intro a b c hab hbc
  rcases hab with h1 | ⟨h1, p1⟩ <;> rcases hbc with h2 | ⟨h2, p2⟩
  · left; exact lt_trans h2 h1
  · left; exact h2 ▸ h1
  · left; exact h1 ▸ h2
  · right; exact ⟨h1.trans h2, p1.trans p2⟩

/-- The strict ranking order: fused score strictly descending, or equal score
and strictly ascending page. -/
def candLT (a b : FusedCandidate) : Prop :=
  b.score < a.score ∨ (a.score = b.score ∧ a.page < b.page)

instance : DecidableRel candLT := fun a b => by
  unfold candLT; infer_instance

instance : IsAntisymm FusedCandidate candLT := by
  constructor
  intro a b h1 h2
  exfalso
  rcases h1 with h1 | ⟨h1, p1⟩ <;> rcases h2 with h2 | ⟨h2, p2⟩
  · exact lt_irrefl _ (lt_trans h1 h2)
  · exact lt_irrefl _ (h2 ▸ h1)
  · exact lt_irrefl _ (h1 ▸ h2)
  · omega

/-- The fused candidate the Hybrid Retriever builds for one page from the two
normalized hit lists: weighted sum of the page's best per-backend scores
(0 for a side missing the page), snippet and full text from the winning
chunk among the page's hits. -/
def mkCandidate (wv wt : ℚ) (vn tn : List RetrievalHit) (p : Nat) : FusedCandidate :=
  { page := p
    product := none
    score := wv * bestScoreAt p vn + wt * bestScoreAt p tn
    snippet := snippetOf (firstMaxText ((vn ++ tn).filter (fun h => h.page = p)))
    full_text := firstMaxText ((vn ++ tn).filter (fun h => h.page = p)) }

/-- Modelled from the spec: Hybrid Retriever fusion (code absent from the
given source files): normalize both backends' scores, deduplicate by page,
fuse scores by weighted sum, sort by fused score descending with ties by
ascending page. -/
def fuseCandidates (wv wt : ℚ) (vhits thits : List RetrievalHit) : List FusedCandidate :=
  let vn := normalizeHits vhits
  let tn := normalizeHits thits
  List.insertionSort candLE
    ((((vn ++ tn).map (fun h => h.page)).dedup).map (mkCandidate wv wt vn tn))

/-- Modelled from the spec: the Hybrid Retriever's output — fused, ranked,
truncated to `k` (code absent from the given source files). -/
def hybridRetrieve (wv wt : ℚ) (k : Nat) (vhits thits : List RetrievalHit) :
    List FusedCandidate :=
  (fuseCandidates wv wt vhits thits).take k

/-- The candidate one single backend's hit list yields for a page: best score
among the page's hits, snippet/full text from the winning chunk. -/
def pageCandidate (hits : List RetrievalHit) (p : Nat) : FusedCandidate :=
  { page := p
    product := none
    score := bestScoreAt p hits
    snippet := snippetOf (firstMaxText (hits.filter (fun h => h.page = p)))
    full_text := firstMaxText (hits.filter (fun h => h.page = p)) }

/-- Single-backend ranking: deduplicate the hit list by page and sort the
page candidates by score descending, ties by ascending page. -/
def rankPages (hits : List RetrievalHit) : List FusedCandidate :=
  List.insertionSort candLE
    (((hits.map (fun h => h.page)).dedup).map (pageCandidate hits))

/-- The Hybrid Retriever's result together with the degraded-result flag. -/
structure RetrieveOutcome where
  candidates : List FusedCandidate
  degraded : Bool
deriving DecidableEq, Repr

/-- Modelled from the spec: the Hybrid Retriever under partial backend
failure (code absent from the given source files) — `none` marks an
unavailable backend; with one backend down the query degrades to
single-backend ranking over the available (normalized) result set and the
degraded flag is raised. -/
def hybridRetrieveAvail (wv wt : ℚ) (k : Nat) :
    Option (List RetrievalHit) → Option (List RetrievalHit) → RetrieveOutcome
  | some v, some t => ⟨hybridRetrieve wv wt k v t, false⟩
  | none, some t => ⟨(rankPages (normalizeHits t)).take k, true⟩
  | some v, none => ⟨(rankPages (normalizeHits v)).take k, true⟩
  | none, none => ⟨[], true⟩

/-- What one backend's retrieval alone would produce (raw backend scores,
no normalization): its page-deduplicated ranking truncated to `k`. -/
def backendAlone (k : Nat) (hits : List RetrievalHit) : List FusedCandidate :=
  (rankPages hits).take k

/-- A candidate with its (normalization-dependent) score erased: page,
snippet and full text. -/
def stripScore (c : FusedCandidate) : Nat × String × String :=
  (c.page, c.snippet, c.full_text)

/-- The page-level ranking order induced by a hit list: compare the page
candidates. -/
def pageLE (hits : List RetrievalHit) (p q : Nat) : Prop :=
  candLE (pageCandidate hits p) (pageCandidate hits q)

instance (hits : List RetrievalHit) : DecidableRel (pageLE hits) := fun p q => by
  unfold pageLE; infer_instance

/-- The ranking order on backend hits: score descending, ties by ascending
chunk id. -/
def hitLE (a b : RetrievalHit) : Prop :=
  b.score < a.score ∨ (a.score = b.score ∧ a.chunk_id ≤ b.chunk_id)

instance : DecidableRel hitLE := fun a b => by
  unfold hitLE; infer_instance

/-- The hit a backend produces for one chunk at a given relevance score. -/
def chunkHit (score : ℚ) (c : Chunk) : RetrievalHit :=
  { chunk_id := c.chunk_id, manual_id := c.manual_id, page := c.page
    score := score, text := c.text }

/-- Modelled from the spec: the backend search contract (top-k by relevance,
scored, filterable by manual; code absent from the given source files) —
score every chunk of the requested manual with the backend's relevance
function, rank by score, truncate to `k`. -/
def backendSearch (scoreOf : Chunk → ℚ) (chunks : List Chunk) (mid : String)
    (k : Nat) : List RetrievalHit :=
  (List.insertionSort hitLE
    ((chunks.filter (fun c => c.manual_id = mid)).map
      (fun c => chunkHit (scoreOf c) c))).take k

/-- Modelled from the spec: the Context Builder (code absent from the given
source files) — greedily accumulate candidates in ranked order within the
character budget; a candidate is included whole or excluded. -/
def buildContext (budget : Nat) : List FusedCandidate → List FusedCandidate
  | [] => []
  | c :: rest =>
    if c.full_text.length ≤ budget then
      c :: buildContext (budget - c.full_text.length) rest
    else
      buildContext budget rest

/-- A query request as posted by the viewer: `{manual_id, query}`. -/
structure AskRequest where
  manual_id : String
  query : String
deriving DecidableEq, Repr

/-- A UI-facing citation: minimal projection of a fused candidate. -/
structure BotCitation where
  page : Nat
  product : Option String
  score : Option ℚ
deriving DecidableEq, Repr

/-- Modelled from the spec: the `AnswerResult` produced per query (code
absent from the given source files). -/
structure AnswerResult where
  answer : String
  citations : List BotCitation
  manual_sections : List FusedCandidate
  used_model : String
  top_pages : List Nat
  manual_id : String
deriving DecidableEq, Repr

/-- The query pipeline's policy parameters and collaborator interfaces:
fusion weights, retrieval depth `k`, section count, context budget,
citation relevance floor, model identifier, the two backend relevance
scorers and the language-model collaborator. -/
structure PipelineConfig where
  wVec : ℚ
  wText : ℚ
  k : Nat
  topN : Nat
  budget : Nat
  floor : ℚ
  model : String
  vScore : String → Chunk → ℚ
  tScore : String → Chunk → ℚ
  gen : String → String → String

/-- Modelled from the spec: the Query Orchestrator composed with the Answer
Synthesizer (code absent from the given source files).  Retrieval fans out
to both backends filtered to the manual (depth `2k`), fusion ranks and
truncates to `k`, the context builder bounds the context, and citations are
derived from retrieval provenance: one per context page above the relevance
floor, in ranked order; `top_pages` are the citations' pages deduplicated;
`manual_sections` are the top-N candidates verbatim. -/
def answerPipeline (cfg : PipelineConfig) (chunks : List Chunk)
    (req : AskRequest) : AnswerResult :=
  let vhits := backendSearch (cfg.vScore req.query) chunks req.manual_id (2 * cfg.k)
  let thits := backendSearch (cfg.tScore req.query) chunks req.manual_id (2 * cfg.k)
  let cands := hybridRetrieve cfg.wVec cfg.wText cfg.k vhits thits
  let ctx := buildContext cfg.budget cands
  let cits := (ctx.filter (fun c => cfg.floor ≤ c.score)).map
    (fun c => BotCitation.mk c.page c.product (some c.score))
  { answer := cfg.gen req.query (String.join (ctx.map (fun c => c.full_text)))
    citations := cits
    manual_sections := cands.take cfg.topN
    used_model := cfg.model
    top_pages := (cits.map (fun c => c.page)).dedup
    manual_id := req.manual_id }

/-- A JSON value, for stating the wire shape of the query endpoint. -/
inductive JVal where
  | jnull : JVal
  | jnum : ℚ → JVal
  | jstr : String → JVal
  | jarr : List JVal → JVal
  | jobj : List (String × JVal) → JVal

/-- The field names of a JSON object (empty for non-objects). -/
def keysOf : JVal → List String
  | JVal.jobj fs => fs.map Prod.fst
  | _ => []

/-- Encode an optional string (JSON null when absent). -/
def encodeOptStr : Option String → JVal
  | none => JVal.jnull
  | some s => JVal.jstr s

/-- Encode an optional number (JSON null when absent). -/
def encodeOptNum : Option ℚ → JVal
  | none => JVal.jnull
  | some q => JVal.jnum q

/-- Wire shape of a citation: `{page, product?, score?}`. -/
def encodeCitation (c : BotCitation) : JVal :=
  JVal.jobj [("page", JVal.jnum c.page), ("product", encodeOptStr c.product),
    ("score", encodeOptNum c.score)]

/-- Wire shape of a manual section: `{page, product?, score?, snippet, full}`. -/
def encodeSection (s : FusedCandidate) : JVal :=
  JVal.jobj [("page", JVal.jnum s.page), ("product", encodeOptStr s.product),
    ("score", JVal.jnum s.score), ("snippet", JVal.jstr s.snippet),
    ("full", JVal.jstr s.full_text)]

/-- Wire shape of a successful `AskResponse`. -/
def encodeAnswerResult (r : AnswerResult) : JVal :=
  JVal.jobj [("answer", JVal.jstr r.answer),
    ("citations", JVal.jarr (r.citations.map encodeCitation)),
    ("manual_sections", JVal.jarr (r.manual_sections.map encodeSection)),
    ("used_model", JVal.jstr r.used_model),
    ("top_pages", JVal.jarr (r.top_pages.map (fun p => JVal.jnum p))),
    ("manual_id", JVal.jstr r.manual_id)]

/-- Modelled from the spec: the query endpoint (HTTP layer absent from the
given source files) — `POST {manual_id, query}` returning a status code and
a JSON body; an unknown manual yields a non-2xx status with a textual error
body, success yields the encoded `AskResponse`. -/
def askEndpoint (cfg : PipelineConfig) (chunks : List Chunk)
    (req : AskRequest) : Nat × JVal :=
  if (chunks.filter (fun c => c.manual_id = req.manual_id)).isEmpty then
    (404, JVal.jstr ("Unknown manual: " ++ req.manual_id))
  else
    (200, encodeAnswerResult (answerPipeline cfg chunks req))

/-!
## The Metadata Resolver
-/

/-- Manual identity metadata: stable id, human-readable label, product id. -/
structure ManualMeta where
  id : String
  label : String
  product_id : Option String
deriving DecidableEq, Repr

/-- Split a character list on a separator character. -/
def splitOnChar (sep : Char) : List Char → List (List Char)
  | [] => [[]]
  | c :: rest =>
    let r := splitOnChar sep rest
    if c = sep then [] :: r
    else
      match r with
      | [] => [[c]]
      | t :: ts => (c :: t) :: ts

/-- Join token lists with a separator character. -/
def joinWith (sep : Char) : List (List Char) → List Char
  | [] => []
  | [t] => t
  | t :: ts => t ++ sep :: joinWith sep ts

/-- Strip the filename extension (the part after the last dot). -/
def stripExt (s : List Char) : List Char :=
  let parts := splitOnChar '.' s
  if parts.length ≤ 1 then s else joinWith '.' parts.dropLast

/-- Whether a token looks like a serial/product-code segment: hyphenated
alphanumeric with at least one digit. -/
def isSerialTok (t : List Char) : Bool :=
  t.any (fun c => c == '-') && t.all (fun c => c.isAlphanum || c == '-') &&
    t.any Char.isDigit

/-- Whether a token is a version marker such as `v2.1`. -/
def isVersionTok (t : List Char) : Bool :=
  match t with
  | c :: rest =>
    (c == 'v' || c == 'V') && !rest.isEmpty &&
      rest.all (fun d => d.isDigit || d == '.')
  | [] => false

/-- Capitalize the first character of a token. -/
def capitalizeTok : List Char → List Char
  | [] => []
  | c :: cs => c.toUpper :: cs

/-- Extract the leading code fragment of a serial token as the product id,
when it matches an uppercase-alphanumeric pattern. -/
def productIdOf (serial : List Char) : Option String :=
  let seg := serial.takeWhile (fun c => c ≠ '-')
  if seg ≠ [] ∧ seg.all (fun c => c.isUpper || c.isDigit) then some ⟨seg⟩
  else none

/-- Modelled from the spec: the Metadata Resolver (code absent from the given
source files).  An explicit override entry for the filename wins verbatim;
otherwise the extension is stripped, a leading serial token is split off as
the product code, version markers are dropped, and the remaining
human-readable tokens yield the lowercase hyphenated `id` and the
spaced-capitalized `label`.  An empty filename is rejected. -/
def resolveMetadata (overrides : List (String × ManualMeta))
    (filename : String) : Except String ManualMeta :=
  match overrides.find? (fun kv => kv.1 == filename) with
  | some kv => Except.ok kv.2
  | none =>
    if filename = "" then Except.error ("MetadataError: empty filename")
    else
      let base := stripExt filename.data
      let toks := splitOnChar '_' base
      let pidRest : Option String × List (List Char) :=
        match toks with
        | t :: ts => if isSerialTok t then (productIdOf t, ts) else (none, toks)
        | [] => (none, [])
      let human := pidRest.2.filter (fun t => !(isVersionTok t))
      Except.ok
        { id := ⟨joinWith '-' (human.map (fun t => t.map Char.toLower))⟩
          label := ⟨joinWith ' ' (human.map capitalizeTok)⟩
          product_id := pidRest.1 }

/-!
## Concrete instances used by the witnesses
-/

/-- A concrete pipeline configuration for evaluating the model on inputs:
equal fusion weights, depth 5, two sections, budget 100, relevance floor 0,
constant backend scorers and a constant language model. -/
def demoCfg : PipelineConfig :=
  { wVec := 1, wText := 1, k := 5, topN := 2, budget := 100, floor := 0
    model := "llama3", vScore := fun _ _ => 1, tScore := fun _ _ => 1
    gen := fun _ _ => "the torque spec is 35 Nm" }

/-- A concrete one-chunk corpus. -/
def demoChunks : List Chunk :=
  [{ chunk_id := 1, manual_id := "m", page := 4, text := "torque spec 35 Nm" }]

/-- C6: clicking a citation with page `p` in the citations list, or a manual
section with page `p`, sets the displayed PDF page number to `max 1 p`. -/
theorem click_cited_page_jumps (s : UIState) (p : Int) :
    (clickCitation s p).pageNumber = max 1 p ∧ (clickSection s p).pageNumber = max 1 p := by
  constructor <;>
    · show max 1 (if p = 0 then 1 else p) = max 1 p
      split <;> omega

/-- C8: once a document is loaded (`numPages = some n` with the current page in
`[1, n]`), Prev and Next keep the page in `[1, n]`; Prev is disabled (a no-op)
at page 1, Next is disabled at the last page, and Next is disabled while the
page count is unknown. -/
theorem viewer_page_nav_invariant (s : UIState) (n : Int)
    (hnp : s.numPages = some n) (h1 : 1 ≤ s.pageNumber) (h2 : s.pageNumber ≤ n) :
    (1 ≤ (clickPrev s).pageNumber ∧ (clickPrev s).pageNumber ≤ n ∧
      1 ≤ (clickNext s).pageNumber ∧ (clickNext s).pageNumber ≤ n) ∧
    (s.pageNumber = 1 → clickPrev s = s) ∧
    (s.pageNumber = n → clickNext s = s) ∧
    (∀ t : UIState, t.numPages = none → clickNext t = t) := by
  have hn1 : 1 ≤ n := le_trans h1 h2
  have hn0 : n ≠ 0 := by omega
  have hjs : jsOr s.numPages s.pageNumber = n := by
    rw [hnp]
    show (if n = 0 then s.pageNumber else n) = n
    rw [if_neg hn0]
  refine ⟨⟨?_, ?_, ?_, ?_⟩, ?_, ?_, ?_⟩
  · unfold clickPrev
    split
    · exact h1
    · show 1 ≤ max 1 (s.pageNumber - 1)
      omega
  · unfold clickPrev
    split
    · exact h2
    · show max 1 (s.pageNumber - 1) ≤ n
      omega
  · unfold clickNext
    split
    · exact h1
    · show 1 ≤ min (jsOr s.numPages s.pageNumber) (s.pageNumber + 1)
      rw [hjs]
      omega
  · unfold clickNext
    split
    · exact h2
    · show min (jsOr s.numPages s.pageNumber) (s.pageNumber + 1) ≤ n
      rw [hjs]
      omega
  · intro hp1
    have hd : prevDisabled s := by unfold prevDisabled; omega
    unfold clickPrev
    exact if_pos hd
  · intro hpn
    have hd : nextDisabled s := by
      right
      rw [hnp]
      show (if n = 0 then 1 else n) ≤ s.pageNumber
      rw [if_neg hn0]
      omega
    unfold clickNext
    exact if_pos hd
  · intro t ht
    have hd : nextDisabled t := by
      left
      rw [ht]
      rfl
    unfold clickNext
    exact if_pos hd

/-- Witness for C8 at a concrete loaded viewer state. -/
theorem viewer_page_nav_invariant_witness :
    (1 ≤ (clickPrev ⟨2, some 5, "q", "u", false, "", [], [], ""⟩).pageNumber ∧
      (clickPrev ⟨2, some 5, "q", "u", false, "", [], [], ""⟩).pageNumber ≤ 5 ∧
      1 ≤ (clickNext ⟨2, some 5, "q", "u", false, "", [], [], ""⟩).pageNumber ∧
      (clickNext ⟨2, some 5, "q", "u", false, "", [], [], ""⟩).pageNumber ≤ 5) ∧
    ((⟨2, some 5, "q", "u", false, "", [], [], ""⟩ : UIState).pageNumber = 1 →
      clickPrev ⟨2, some 5, "q", "u", false, "", [], [], ""⟩ =
        ⟨2, some 5, "q", "u", false, "", [], [], ""⟩) ∧
    ((⟨2, some 5, "q", "u", false, "", [], [], ""⟩ : UIState).pageNumber = 5 →
      clickNext ⟨2, some 5, "q", "u", false, "", [], [], ""⟩ =
        ⟨2, some 5, "q", "u", false, "", [], [], ""⟩) ∧
    (∀ t : UIState, t.numPages = none → clickNext t = t) :=
  viewer_page_nav_invariant ⟨2, some 5, "q", "u", false, "", [], [], ""⟩ 5
    rfl (by decide) (by decide)

/-- C9: the page jumped to after a successful ask response is always an integer
≥ 1; it equals `top_pages[0]` when that entry is a truthy positive number, a
negative first entry is clamped to 1, and when `top_pages` yields nothing
truthy the first citation's page is used the same way, with final fallback 1. -/
theorem jumpPage_safe (tp cits : Option (List (Option Int))) :
    1 ≤ jumpPage tp cits ∧
    (∀ n : Int, firstVal tp = some n → 0 < n → jumpPage tp cits = n) ∧
    (∀ n : Int, firstVal tp = some n → n < 0 → jumpPage tp cits = 1) ∧
    (jsTruthy (firstVal tp) = false →
      (∀ m : Int, firstVal cits = some m → 0 < m → jumpPage tp cits = m) ∧
      (∀ m : Int, firstVal cits = some m → m < 0 → jumpPage tp cits = 1) ∧
      (jsTruthy (firstVal cits) = false → jumpPage tp cits = 1)) := by
  have htruthy : ∀ k : Int, k ≠ 0 → jsTruthy (some k) = true := by
    intro k hk
    simp only [jsTruthy, bne_iff_ne, ne_eq]
    exact hk
  refine ⟨le_max_left 1 _, ?_, ?_, ?_⟩
  · intro k hk hpos
    show jumpVal (firstVal tp) (firstVal cits) = k
    rw [hk]
    show max 1 (jsOr (if jsTruthy (some k) = true then some k
      else if jsTruthy (firstVal cits) = true then firstVal cits else some 1) 1) = k
    rw [if_pos (htruthy k (by omega))]
    show max 1 (if k = 0 then 1 else k) = k
    rw [if_neg (by omega : ¬ k = 0)]
    omega
  · intro k hk hneg
    show jumpVal (firstVal tp) (firstVal cits) = 1
    rw [hk]
    show max 1 (jsOr (if jsTruthy (some k) = true then some k
      else if jsTruthy (firstVal cits) = true then firstVal cits else some 1) 1) = 1
    rw [if_pos (htruthy k (by omega))]
    show max 1 (if k = 0 then 1 else k) = 1
    rw [if_neg (by omega : ¬ k = 0)]
    omega
  · intro hf
    have hskip : jumpPage tp cits =
        max 1 (jsOr (if jsTruthy (firstVal cits) = true then firstVal cits else some 1) 1) := by
      show max 1 (jsOr (if jsTruthy (firstVal tp) = true then firstVal tp
        else if jsTruthy (firstVal cits) = true then firstVal cits else some 1) 1) = _
      rw [if_neg (by simp [hf])]
    refine ⟨?_, ?_, ?_⟩
    · intro m hm hpos
      rw [hskip, hm]
      rw [if_pos (htruthy m (by omega))]
      show max 1 (if m = 0 then 1 else m) = m
      rw [if_neg (by omega : ¬ m = 0)]
      omega
    · intro m hm hneg
      rw [hskip, hm]
      rw [if_pos (htruthy m (by omega))]
      show max 1 (if m = 0 then 1 else m) = 1
      rw [if_neg (by omega : ¬ m = 0)]
      omega
    · intro hc
      rw [hskip]
      rw [if_neg (by simp [hc])]
      decide

/-- Witness for C9: with `top_pages = [4]` the viewer jumps to page 4. -/
theorem jumpPage_safe_witness :
    jumpPage (some [some 4]) (some [some 7]) = 4 :=
  (jumpPage_safe (some [some 4]) (some [some 7])).2.1 4 rfl (by decide)

/-- C10: the Ask control fires no request when the query is empty or
whitespace-only, no PDF is selected, or a request is in flight (the click is a
no-op); when it does fire, the handler first clears the previous answer,
citations, sections and error, and marks a request in flight. -/
theorem ask_gate_and_reset (s : UIState) :
    (jsTrim s.query = "" ∨ s.pdfUrl = "" ∨ s.loading = true → clickAsk s = s) ∧
    (¬ askDisabled s →
      (clickAsk s).answer = "" ∧ (clickAsk s).citations = [] ∧
      (clickAsk s).sections = [] ∧ (clickAsk s).askError = "" ∧
      (clickAsk s).loading = true) := by
  constructor
  · intro h
    unfold clickAsk
    rw [if_pos]
    exact h
  · intro h
    unfold clickAsk
    rw [if_neg h]
    simp [beginAsk]

/-- Witness for C10: a whitespace-only query leaves the state unchanged, and an
enabled click clears the Q&A state. -/
theorem ask_gate_and_reset_witness :
    clickAsk ⟨1, none, "  ", "", false, "a", [], [], "e"⟩ =
      ⟨1, none, "  ", "", false, "a", [], [], "e"⟩ ∧
    (clickAsk ⟨1, none, "hi", "u", false, "a", [], [], "e"⟩).answer = "" :=
  ⟨(ask_gate_and_reset ⟨1, none, "  ", "", false, "a", [], [], "e"⟩).1 (Or.inl rfl),
    ((ask_gate_and_reset ⟨1, none, "hi", "u", false, "a", [], [], "e"⟩).2 (by
      unfold askDisabled
      simp [jsTrim])).1⟩

/-- C7: the Metadata Resolver on `XYZ-123-456_Product_Manual_v2.1.pdf` with no
override derives id `product-manual`, label `Product Manual` and product id
`XYZ`. -/
theorem metadata_resolver_example :
    resolveMetadata [] "XYZ-123-456_Product_Manual_v2.1.pdf" =
      Except.ok ⟨"product-manual", "Product Manual", some ("XYZ")⟩ := rfl

/-- C2: the query endpoint's wire shape — a 2xx response body is an encoded
`AskResponse` whose object carries exactly the fields answer, citations,
manual_sections, used_model, top_pages and manual_id, with citations shaped
`{page, product, score}`, sections shaped `{page, product, score, snippet,
full}` and top_pages a list of integers; a non-2xx response body is a
textual error message. -/
theorem ask_endpoint_shape (cfg : PipelineConfig) (chunks : List Chunk)
    (req : AskRequest) :
    (200 ≤ (askEndpoint cfg chunks req).1 ∧ (askEndpoint cfg chunks req).1 < 300 →
      ∃ r : AnswerResult, (askEndpoint cfg chunks req).2 = encodeAnswerResult r) ∧
    (¬ (200 ≤ (askEndpoint cfg chunks req).1 ∧ (askEndpoint cfg chunks req).1 < 300) →
      ∃ msg : String, (askEndpoint cfg chunks req).2 = JVal.jstr msg) ∧
    (∀ r : AnswerResult,
      keysOf (encodeAnswerResult r) =
        ["answer", "citations", "manual_sections", "used_model", "top_pages",
          "manual_id"] ∧
      (∀ v ∈ r.citations.map encodeCitation,
        keysOf v = ["page", "product", "score"]) ∧
      (∀ v ∈ r.manual_sections.map encodeSection,
        keysOf v = ["page", "product", "score", "snippet", "full"]) ∧
      (∀ v ∈ r.top_pages.map (fun p : Nat => JVal.jnum p), ∃ n : Nat, v = JVal.jnum n)) := by
  refine ⟨?_, ?_, ?_⟩
  · intro h
    by_cases hE : (chunks.filter (fun c => c.manual_id = req.manual_id)).isEmpty
    · exfalso
      have h404 : (askEndpoint cfg chunks req).1 = 404 := by
        simp [askEndpoint, hE]
      omega
    · exact ⟨answerPipeline cfg chunks req, by simp [askEndpoint, hE]⟩
  · intro h
    by_cases hE : (chunks.filter (fun c => c.manual_id = req.manual_id)).isEmpty
    · exact ⟨"Unknown manual: " ++ req.manual_id, by simp [askEndpoint, hE]⟩
    · exfalso
      apply h
      have h200 : (askEndpoint cfg chunks req).1 = 200 := by
        simp [askEndpoint, hE]
      omega
  · intro r
    refine ⟨rfl, ?_, ?_, ?_⟩
    · intro v hv
      rcases List.mem_map.mp hv with ⟨c, _, rfl⟩
      rfl
    · intro v hv
      rcases List.mem_map.mp hv with ⟨s, _, rfl⟩
      rfl
    · intro v hv
      rcases List.mem_map.mp hv with ⟨m, _, hEq⟩
      exact ⟨m, hEq.symm⟩

/-- Witness for C2: the demo corpus answers with a 200-encoded response, and
an unknown manual yields a textual error body. -/
theorem ask_endpoint_shape_witness :
    (∃ r : AnswerResult,
      (askEndpoint demoCfg demoChunks ⟨"m", "q"⟩).2 = encodeAnswerResult r) ∧
    (∃ msg : String, (askEndpoint demoCfg [] ⟨"m", "q"⟩).2 = JVal.jstr msg) :=
  ⟨(ask_endpoint_shape demoCfg demoChunks ⟨"m", "q"⟩).1 (by decide),
    (ask_endpoint_shape demoCfg [] ⟨"m", "q"⟩).2.1 (by decide)⟩

/-- Every hit a backend search returns references a page indexed for the
requested manual. -/
theorem backendSearch_page_indexed (scoreOf : Chunk → ℚ) (chunks : List Chunk)
    (mid : String) (k : Nat) :
    ∀ h ∈ backendSearch scoreOf chunks mid k, h.page ∈ indexedPages chunks mid := by
  intro h hh
  have h1 : h ∈ List.insertionSort hitLE
      ((chunks.filter (fun c => c.manual_id = mid)).map
        (fun c => chunkHit (scoreOf c) c)) := List.mem_of_mem_take hh
  rw [List.mem_insertionSort] at h1
  rcases List.mem_map.mp h1 with ⟨c, hc, rfl⟩
  exact List.mem_map.mpr ⟨c, hc, rfl⟩

/-- Normalization does not change the hits' pages. -/
theorem normalizeHits_page_map (hits : List RetrievalHit) :
    (normalizeHits hits).map (fun h => h.page) = hits.map (fun h => h.page) := by
  simp [normalizeHits, List.map_map, Function.comp]

/-- Every fused candidate's page comes from one of the two backends' hit
lists. -/
theorem mem_hybridRetrieve_pages (wv wt : ℚ) (k : Nat)
    (vhits thits : List RetrievalHit) :
    ∀ c ∈ hybridRetrieve wv wt k vhits thits,
      c.page ∈ vhits.map (fun h => h.page) ∨
        c.page ∈ thits.map (fun h => h.page) := by
  intro c hc
  have h1 : c ∈ fuseCandidates wv wt vhits thits := List.mem_of_mem_take hc
  simp only [fuseCandidates] at h1
  rw [List.mem_insertionSort] at h1
  rcases List.mem_map.mp h1 with ⟨p, hp, rfl⟩
  show p ∈ vhits.map (fun h => h.page) ∨ p ∈ thits.map (fun h => h.page)
  rw [List.mem_dedup, List.map_append] at hp
  rcases List.mem_append.mp hp with h | h
  · left
    rwa [normalizeHits_page_map] at h
  · right
    rwa [normalizeHits_page_map] at h

/-- The context builder only selects candidates from its input. -/
theorem buildContext_subset (budget : Nat) (l : List FusedCandidate) :
    ∀ c ∈ buildContext budget l, c ∈ l := by
  induction l generalizing budget with
  | nil =>
    intro c hc
    simp [buildContext] at hc
  | cons a t ih =>
    intro c hc
    unfold buildContext at hc
    split at hc
    · rcases List.mem_cons.mp hc with rfl | h2
      · exact List.mem_cons_self _ _
      · exact List.mem_cons_of_mem _ (ih _ _ h2)
    · exact List.mem_cons_of_mem _ (ih _ _ hc)

/-- Every citation the pipeline produces references a page indexed for the
requested manual. -/
theorem pipeline_citation_pages (cfg : PipelineConfig) (chunks : List Chunk)
    (req : AskRequest) :
    ∀ c ∈ (answerPipeline cfg chunks req).citations,
      c.page ∈ indexedPages chunks req.manual_id := by
  intro c hc
  simp only [answerPipeline] at hc
  rcases List.mem_map.mp hc with ⟨d, hd, rfl⟩
  show d.page ∈ indexedPages chunks req.manual_id
  have hd2 : d ∈ buildContext cfg.budget
      (hybridRetrieve cfg.wVec cfg.wText cfg.k
        (backendSearch (cfg.vScore req.query) chunks req.manual_id (2 * cfg.k))
        (backendSearch (cfg.tScore req.query) chunks req.manual_id (2 * cfg.k))) :=
    List.mem_of_mem_filter hd
  have hd3 := buildContext_subset _ _ _ hd2
  rcases mem_hybridRetrieve_pages _ _ _ _ _ _ hd3 with h | h
  · rcases List.mem_map.mp h with ⟨x, hx, hpx⟩
    have hix := backendSearch_page_indexed (cfg.vScore req.query) chunks
      req.manual_id (2 * cfg.k) x hx
    rwa [hpx] at hix
  · rcases List.mem_map.mp h with ⟨x, hx, hpx⟩
    have hix := backendSearch_page_indexed (cfg.tScore req.query) chunks
      req.manual_id (2 * cfg.k) x hx
    rwa [hpx] at hix

/-- The pipeline's top pages are its citations' pages, deduplicated. -/
theorem pipeline_top_pages (cfg : PipelineConfig) (chunks : List Chunk)
    (req : AskRequest) :
    (answerPipeline cfg chunks req).top_pages =
      ((answerPipeline cfg chunks req).citations.map (fun c => c.page)).dedup := rfl

/-- C1: every citation returned for a query, and every entry of `top_pages`,
references a page with at least one indexed chunk for the requested
manual — the system never fabricates a citation to a non-indexed page. -/
theorem citation_pages_indexed (cfg : PipelineConfig) (chunks : List Chunk)
    (req : AskRequest) :
    (∀ c ∈ (answerPipeline cfg chunks req).citations,
      c.page ∈ indexedPages chunks req.manual_id) ∧
    (∀ p ∈ (answerPipeline cfg chunks req).top_pages,
      p ∈ indexedPages chunks req.manual_id) := by
  refine ⟨pipeline_citation_pages cfg chunks req, ?_⟩
  intro p hp
  rw [pipeline_top_pages, List.mem_dedup] at hp
  rcases List.mem_map.mp hp with ⟨c, hc, rfl⟩
  exact pipeline_citation_pages cfg chunks req c hc

/-- The demo pipeline's citation list, evaluated. -/
theorem demo_citations :
    (answerPipeline demoCfg demoChunks ⟨"m", "q"⟩).citations =
      [⟨4, none, some 2⟩] := by
  simp [answerPipeline, backendSearch, hybridRetrieve, fuseCandidates,
    normalizeHits, normFun, listMin, listMax, bestScoreAt, firstMaxText,
    snippetOf, mkCandidate, buildContext, chunkHit, demoCfg, demoChunks,
    List.insertionSort, List.orderedInsert, List.dedup, List.filter,
    one_add_one_eq_two]

/-- Witness for C1: the demo query cites page 4, which is indexed for the
demo manual. -/
theorem citation_pages_indexed_witness : (4 : Nat) ∈ indexedPages demoChunks ("m") :=
  (citation_pages_indexed demoCfg demoChunks ⟨"m", "q"⟩).1 ⟨4, none, some 2⟩
    (by rw [demo_citations]; exact List.mem_singleton.mpr rfl)

/-- Distinct fused candidates carry distinct pages (one candidate per page
survives deduplication). -/
theorem pairwise_ne_pages_fuse (wv wt : ℚ) (vhits thits : List RetrievalHit) :
    (fuseCandidates wv wt vhits thits).Pairwise (fun a b => a.page ≠ b.page) := by
  have hnodup : ((((normalizeHits vhits) ++ (normalizeHits thits)).map
      (fun h => h.page)).dedup).Nodup := List.nodup_dedup _
  have h1 : (((((normalizeHits vhits) ++ (normalizeHits thits)).map
      (fun h => h.page)).dedup).map
        (mkCandidate wv wt (normalizeHits vhits) (normalizeHits thits))).Pairwise
      (fun a b => a.page ≠ b.page) := List.pairwise_map.mpr hnodup
  simp only [fuseCandidates]
  exact ((List.perm_insertionSort candLE _).pairwise_iff
    (fun h e => h e.symm)).mpr h1

/-- The fused candidate list is sorted by the ranking order. -/
theorem sorted_candLE_fuse (wv wt : ℚ) (vhits thits : List RetrievalHit) :
    (fuseCandidates wv wt vhits thits).Sorted candLE := by
  simp only [fuseCandidates]
  exact List.sorted_insertionSort candLE _

/-- The truncated retriever output is strictly ranked: score strictly
descending, ties by strictly ascending page. -/
theorem pairwise_candLT_hybrid (wv wt : ℚ) (k : Nat)
    (vhits thits : List RetrievalHit) :
    (hybridRetrieve wv wt k vhits thits).Pairwise candLT := by
  have hs := sorted_candLE_fuse wv wt vhits thits
  have hne := pairwise_ne_pages_fuse wv wt vhits thits
  have hboth := List.Pairwise.and hs hne
  have hlt : (fuseCandidates wv wt vhits thits).Pairwise candLT :=
    hboth.imp (fun hab =>
      hab.1.elim Or.inl (fun hpe => Or.inr ⟨hpe.1, Nat.lt_of_le_of_ne hpe.2 hab.2⟩))
  exact List.Pairwise.sublist (List.take_sublist k _) hlt

/-- C3: for every query and fixed pair of backend result sets, the Hybrid
Retriever's output has length at most `k` and is sorted by fused score
descending, with equal scores ordered by ascending page number. -/
theorem hybrid_output_ranked (wv wt : ℚ) (k : Nat)
    (vhits thits : List RetrievalHit) :
    (hybridRetrieve wv wt k vhits thits).length ≤ k ∧
    (hybridRetrieve wv wt k vhits thits).Pairwise
      (fun a b => b.score < a.score ∨ (a.score = b.score ∧ a.page < b.page)) :=
  ⟨List.length_take_le k _, pairwise_candLT_hybrid wv wt k vhits thits⟩

/-- C4: the Hybrid Retriever is deterministic including tie resolution — the
ranked sequence is the unique strictly-ranked arrangement of its candidates,
so any run producing a strictly-ranked permutation of the output produces
exactly the output. -/
theorem fusion_deterministic (wv wt : ℚ) (k : Nat)
    (vhits thits : List RetrievalHit) (l : List FusedCandidate)
    (hperm : l.Perm (hybridRetrieve wv wt k vhits thits))
    (hsort : l.Pairwise candLT) :
    l = hybridRetrieve wv wt k vhits thits :=
  List.eq_of_perm_of_sorted hperm hsort (pairwise_candLT_hybrid wv wt k vhits thits)

/-- Witness for C4 at a concrete input. -/
theorem fusion_deterministic_witness :
    ([] : List FusedCandidate) = hybridRetrieve 1 1 3 [] [] :=
  fusion_deterministic 1 1 3 [] [] [] (by decide) (by decide)

/-- The list minimum bounds every member from below. -/
theorem listMin_le : ∀ (l : List ℚ) (s : ℚ), s ∈ l → listMin l ≤ s
  | [], s, h => absurd h (List.not_mem_nil s)
  | [a], s, h => by
    rcases List.mem_singleton.mp h with rfl
    exact le_refl s
  | a :: b :: t, s, h => by
    rcases List.mem_cons.mp h with rfl | h2
    · exact min_le_left _ _
    · exact le_trans (min_le_right _ _) (listMin_le (b :: t) s h2)

/-- The list maximum bounds every member from above. -/
theorem le_listMax : ∀ (l : List ℚ) (s : ℚ), s ∈ l → s ≤ listMax l
  | [], s, h => absurd h (List.not_mem_nil s)
  | [a], s, h => by
    rcases List.mem_singleton.mp h with rfl
    exact le_refl s
  | a :: b :: t, s, h => by
    rcases List.mem_cons.mp h with rfl | h2
    · exact le_max_left _ _
    · exact le_trans (le_listMax (b :: t) s h2) (le_max_right _ _)

/-- The maximum of a nonempty constant list is that constant. -/
theorem listMax_of_all_eq : ∀ (l : List ℚ) (c : ℚ), l ≠ [] →
    (∀ s ∈ l, s = c) → listMax l = c
  | [], c, hne, _ => absurd rfl hne
  | [a], c, _, hall => hall a (List.mem_singleton.mpr rfl)
  | a :: b :: t, c, _, hall => by
    have ha := hall a (List.mem_cons_self a _)
    have ih := listMax_of_all_eq (b :: t) c (List.cons_ne_nil b t)
      (fun s hs => hall s (List.mem_cons_of_mem a hs))
    show max a (listMax (b :: t)) = c
    rw [ha, ih, max_self]

/-- On a nonempty score list the minimum is at most the maximum. -/
theorem scores_lo_le_hi (l : List ℚ) (hne : l ≠ []) : listMin l ≤ listMax l := by
  obtain ⟨s, hs⟩ := List.exists_mem_of_ne_nil l hne
  exact le_trans (listMin_le l s hs) (le_listMax l s hs)

/-- Min-max normalization commutes with binary maxima. -/
theorem normFun_max (lo hi a b : ℚ) (hle : lo ≤ hi) :
    normFun lo hi (max a b) = max (normFun lo hi a) (normFun lo hi b) := by
  by_cases hc : hi = lo
  · simp [normFun, hc]
  · have h0 : (0 : ℚ) < hi - lo := sub_pos.mpr (lt_of_le_of_ne hle (Ne.symm hc))
    simp only [normFun, if_neg hc]
    rw [max_div_div_right h0.le, max_sub_sub_right]

/-- Min-max normalization commutes with list maxima on nonempty lists. -/
theorem listMax_map_normFun (lo hi : ℚ) (hle : lo ≤ hi) :
    ∀ (l : List ℚ), l ≠ [] →
      listMax (l.map (normFun lo hi)) = normFun lo hi (listMax l)
  | [], hne => absurd rfl hne
  | [a], _ => rfl
  | a :: b :: t, _ => by
    have ih := listMax_map_normFun lo hi hle (b :: t) (List.cons_ne_nil b t)
    show max (normFun lo hi a) (listMax ((b :: t).map (normFun lo hi))) =
      normFun lo hi (max a (listMax (b :: t)))
    rw [ih, normFun_max lo hi a (listMax (b :: t)) hle]

/-- Below the degenerate case, min-max normalization is strictly monotone. -/
theorem normFun_lt_iff (lo hi a b : ℚ) (h0 : lo < hi) :
    (normFun lo hi a < normFun lo hi b ↔ a < b) := by
  have hne : hi ≠ lo := ne_of_gt h0
  have hpos : (0 : ℚ) < hi - lo := sub_pos.mpr h0
  simp only [normFun, if_neg hne]
  rw [div_lt_div_iff_of_pos_right hpos, sub_lt_sub_iff_right]

/-- Below the degenerate case, min-max normalization is injective. -/
theorem normFun_inj (lo hi a b : ℚ) (h0 : lo < hi) :
    (normFun lo hi a = normFun lo hi b ↔ a = b) := by
  constructor
  · intro h
    by_contra hne
    rcases lt_or_gt_of_ne hne with hlt | hgt
    · have hx := (normFun_lt_iff lo hi a b h0).mpr hlt
      rw [h] at hx
      exact lt_irrefl _ hx
    · have hx := (normFun_lt_iff lo hi b a h0).mpr hgt
      rw [h] at hx
      exact lt_irrefl _ hx
  · intro h
    rw [h]

/-- Filtering normalized hits by page is mapping normalization over the raw
page filter. -/
theorem filter_normalizeHits (hits : List RetrievalHit) (p : Nat) :
    (normalizeHits hits).filter (fun h => h.page = p) =
      (hits.filter (fun h => h.page = p)).map (fun h =>
        { h with
          score := normFun (listMin (hits.map (fun x => x.score)))
            (listMax (hits.map (fun x => x.score))) h.score }) := by
  show List.filter _ (hits.map _) = _
  rw [List.filter_map]
  rfl

/-- A page present in a hit list has normalized best score equal to the
normalization of its raw best score. -/
theorem bestScoreAt_normalizeHits (hits : List RetrievalHit) (p : Nat)
    (hp : p ∈ hits.map (fun h => h.page)) :
    bestScoreAt p (normalizeHits hits) =
      normFun (listMin (hits.map (fun x => x.score)))
        (listMax (hits.map (fun x => x.score))) (bestScoreAt p hits) := by
  obtain ⟨h0, hh0, hph⟩ := List.mem_map.mp hp
  have hne : hits ≠ [] := List.ne_nil_of_mem hh0
  have hle := scores_lo_le_hi (hits.map (fun x => x.score))
    (fun hEq => hne (List.map_eq_nil_iff.mp hEq))
  have hmemf : h0 ∈ hits.filter (fun h => h.page = p) :=
    List.mem_filter.mpr ⟨hh0, by simp [hph]⟩
  have hfne : ((hits.filter (fun h => h.page = p)).map (fun x => x.score)) ≠ [] :=
    List.ne_nil_of_mem (List.mem_map_of_mem _ hmemf)
  unfold bestScoreAt
  rw [filter_normalizeHits]
  have hmm : (((hits.filter (fun h => h.page = p)).map (fun h =>
      { h with
        score := normFun (listMin (hits.map (fun x : RetrievalHit => x.score)))
          (listMax (hits.map (fun x : RetrievalHit => x.score))) h.score })).map
        (fun h => h.score)) =
      ((hits.filter (fun h => h.page = p)).map (fun x => x.score)).map
        (normFun (listMin (hits.map (fun x => x.score)))
          (listMax (hits.map (fun x => x.score)))) := by
    rw [List.map_map, List.map_map]
    rfl
  rw [hmm, listMax_map_normFun _ _ hle _ hfne]

/-- In the degenerate case (all backend scores equal) every present page's
best raw score is that common value. -/
theorem bestScoreAt_degenerate (hits : List RetrievalHit) (p : Nat)
    (hp : p ∈ hits.map (fun h => h.page))
    (heq : listMax (hits.map (fun x => x.score)) =
      listMin (hits.map (fun x => x.score))) :
    bestScoreAt p hits = listMin (hits.map (fun x => x.score)) := by
  obtain ⟨h0, hh0, hph⟩ := List.mem_map.mp hp
  have hmemf : h0 ∈ hits.filter (fun h => h.page = p) :=
    List.mem_filter.mpr ⟨hh0, by simp [hph]⟩
  unfold bestScoreAt
  apply listMax_of_all_eq
  · exact List.ne_nil_of_mem (List.mem_map_of_mem _ hmemf)
  · intro s hs
    rcases List.mem_map.mp hs with ⟨x, hx, rfl⟩
    have hsc : x.score ∈ hits.map (fun y => y.score) :=
      List.mem_map_of_mem _ (List.mem_of_mem_filter hx)
    exact le_antisymm (heq ▸ le_listMax _ _ hsc) (listMin_le _ _ hsc)

/-- Comparing two present pages' candidates is unchanged by normalization. -/
theorem candLE_pageCandidate_normalize_iff (hits : List RetrievalHit) (p q : Nat)
    (hp : p ∈ hits.map (fun h => h.page)) (hq : q ∈ hits.map (fun h => h.page)) :
    (candLE (pageCandidate (normalizeHits hits) p)
        (pageCandidate (normalizeHits hits) q) ↔
      candLE (pageCandidate hits p) (pageCandidate hits q)) := by
  obtain ⟨h0, hh0, _⟩ := List.mem_map.mp hp
  have hne : hits ≠ [] := List.ne_nil_of_mem hh0
  have hle := scores_lo_le_hi (hits.map (fun x => x.score))
    (fun hEq => hne (List.map_eq_nil_iff.mp hEq))
  show (bestScoreAt q (normalizeHits hits) < bestScoreAt p (normalizeHits hits) ∨
      (bestScoreAt p (normalizeHits hits) = bestScoreAt q (normalizeHits hits) ∧
        p ≤ q)) ↔
    (bestScoreAt q hits < bestScoreAt p hits ∨
      (bestScoreAt p hits = bestScoreAt q hits ∧ p ≤ q))
  rw [bestScoreAt_normalizeHits hits p hp, bestScoreAt_normalizeHits hits q hq]
  rcases lt_or_eq_of_le hle with hlt | heqlh
  · rw [normFun_lt_iff _ _ _ _ hlt, normFun_inj _ _ _ _ hlt]
  · have hdeg := heqlh.symm
    rw [bestScoreAt_degenerate hits p hp hdeg, bestScoreAt_degenerate hits q hq hdeg]
    simp [normFun, hdeg, lt_irrefl]

/-- Two pointwise-equal predicates find the same first element. -/
theorem find_first_congr {α : Type} (p q : α → Bool) :
    ∀ (l : List α), (∀ x ∈ l, p x = q x) → l.find? p = l.find? q
  | [], _ => rfl
  | a :: t, hall => by
    have ha := hall a (List.mem_cons_self a t)
    rw [List.find?_cons, List.find?_cons, ha]
    cases hq : q a with
    | true => rfl
    | false =>
      simp only []
      exact find_first_congr p q t (fun x hx => hall x (List.mem_cons_of_mem a hx))

/-- The winning chunk of a present page is unchanged by normalization. -/
theorem firstMaxText_normalizeHits (hits : List RetrievalHit) (p : Nat)
    (hp : p ∈ hits.map (fun h => h.page)) :
    firstMaxText ((normalizeHits hits).filter (fun h => h.page = p)) =
      firstMaxText (hits.filter (fun h => h.page = p)) := by
  obtain ⟨h0, hh0, hph⟩ := List.mem_map.mp hp
  have hne : hits ≠ [] := List.ne_nil_of_mem hh0
  have hle := scores_lo_le_hi (hits.map (fun x => x.score))
    (fun hEq => hne (List.map_eq_nil_iff.mp hEq))
  have hmemf : h0 ∈ hits.filter (fun h => h.page = p) :=
    List.mem_filter.mpr ⟨hh0, by simp [hph]⟩
  have hfne : ((hits.filter (fun h => h.page = p)).map (fun x => x.score)) ≠ [] :=
    List.ne_nil_of_mem (List.mem_map_of_mem _ hmemf)
  rw [filter_normalizeHits]
  unfold firstMaxText
  have hmm : (((hits.filter (fun h => h.page = p)).map (fun h =>
      { h with
        score := normFun (listMin (hits.map (fun x : RetrievalHit => x.score)))
          (listMax (hits.map (fun x : RetrievalHit => x.score))) h.score })).map
        (fun x => x.score)) =
      ((hits.filter (fun h => h.page = p)).map (fun x => x.score)).map
        (normFun (listMin (hits.map (fun x => x.score)))
          (listMax (hits.map (fun x => x.score)))) := by
    rw [List.map_map, List.map_map]
    rfl
  rw [hmm, listMax_map_normFun _ _ hle _ hfne, List.find?_map]
  have hpredEq : ∀ x ∈ hits.filter (fun h => h.page = p),
      ((fun h : RetrievalHit => h.score ==
          normFun (listMin (hits.map (fun x => x.score)))
            (listMax (hits.map (fun x => x.score)))
            (listMax ((hits.filter (fun h => h.page = p)).map
              (fun x => x.score)))) ∘ (fun h =>
        { h with
          score := normFun (listMin (hits.map (fun x : RetrievalHit => x.score)))
            (listMax (hits.map (fun x : RetrievalHit => x.score))) h.score })) x =
      (fun h : RetrievalHit => h.score ==
        listMax ((hits.filter (fun h => h.page = p)).map (fun x => x.score))) x := by
    intro x hx
    show (normFun (listMin (hits.map (fun x => x.score)))
        (listMax (hits.map (fun x => x.score))) x.score ==
      normFun (listMin (hits.map (fun x => x.score)))
        (listMax (hits.map (fun x => x.score)))
        (listMax ((hits.filter (fun h => h.page = p)).map (fun x => x.score)))) =
      (x.score == listMax ((hits.filter (fun h => h.page = p)).map (fun x => x.score)))
    rcases lt_or_eq_of_le hle with hlt | heqlh
    · rw [Bool.eq_iff_iff, beq_iff_eq, beq_iff_eq]
      exact normFun_inj _ _ _ _ hlt
    · have hdeg := heqlh.symm
      have hconst : ∀ y : ℚ, normFun (listMin (hits.map (fun x => x.score)))
          (listMax (hits.map (fun x => x.score))) y = 1 := by
        intro y
        simp [normFun, hdeg]
      have hxlo : x.score = listMin (hits.map (fun x => x.score)) := by
        have hsc : x.score ∈ hits.map (fun y => y.score) :=
          List.mem_map_of_mem _ (List.mem_of_mem_filter hx)
        exact le_antisymm (hdeg ▸ le_listMax _ _ hsc) (listMin_le _ _ hsc)
      have hMlo : listMax ((hits.filter (fun h => h.page = p)).map
          (fun x => x.score)) = listMin (hits.map (fun x => x.score)) := by
        apply listMax_of_all_eq _ _ hfne
        intro s hs
        rcases List.mem_map.mp hs with ⟨y, hy, rfl⟩
        have hsc : y.score ∈ hits.map (fun z => z.score) :=
          List.mem_map_of_mem _ (List.mem_of_mem_filter hy)
        exact le_antisymm (hdeg ▸ le_listMax _ _ hsc) (listMin_le _ _ hsc)
      rw [hconst, hconst, hMlo, hxlo]
      rw [Bool.eq_iff_iff, beq_iff_eq, beq_iff_eq]
      simp
  rw [find_first_congr _ _ _ hpredEq]
  cases hfind : (hits.filter (fun h => h.page = p)).find? (fun h => h.score ==
      listMax ((hits.filter (fun h => h.page = p)).map (fun x => x.score))) with
  | none => rfl
  | some x => rfl

/-- Single-backend ranking of normalized hits matches the raw single-backend
ranking up to scores: page order and winning texts coincide. -/
theorem rankPages_normalizeHits_strip (hits : List RetrievalHit) :
    (rankPages (normalizeHits hits)).map stripScore =
      (rankPages hits).map stripScore := by
  rcases eq_or_ne hits [] with rfl | hne0
  · rfl
  · have hpages := normalizeHits_page_map hits
    show (List.insertionSort candLE
        ((((normalizeHits hits).map (fun h => h.page)).dedup).map
          (pageCandidate (normalizeHits hits)))).map stripScore =
      (List.insertionSort candLE
        (((hits.map (fun h => h.page)).dedup).map (pageCandidate hits))).map
          stripScore
    rw [hpages]
    have hmemP : ∀ x ∈ (hits.map (fun h => h.page)).dedup,
        x ∈ hits.map (fun h => h.page) := fun x hx => List.mem_dedup.mp hx
    have e1 : (List.insertionSort (pageLE hits)
        ((hits.map (fun h => h.page)).dedup)).map (pageCandidate hits) =
        List.insertionSort candLE
          (((hits.map (fun h => h.page)).dedup).map (pageCandidate hits)) :=
      List.map_insertionSort (pageLE hits) candLE (pageCandidate hits) _
        (fun a _ b _ => Iff.rfl)
    have e2 : (List.insertionSort (pageLE hits)
        ((hits.map (fun h => h.page)).dedup)).map
          (pageCandidate (normalizeHits hits)) =
        List.insertionSort candLE
          (((hits.map (fun h => h.page)).dedup).map
            (pageCandidate (normalizeHits hits))) :=
      List.map_insertionSort (pageLE hits) candLE (pageCandidate (normalizeHits hits)) _
        (fun a ha b hb =>
          (candLE_pageCandidate_normalize_iff hits a b (hmemP a ha) (hmemP b hb)).symm)
    rw [← e1, ← e2, List.map_map, List.map_map]
    apply List.map_congr_left
    intro x hx
    have hxP : x ∈ hits.map (fun h => h.page) :=
      hmemP x ((List.mem_insertionSort (pageLE hits)).mp hx)
    show stripScore (pageCandidate (normalizeHits hits) x) =
      stripScore (pageCandidate hits x)
    unfold stripScore pageCandidate
    rw [firstMaxText_normalizeHits hits x hxP]

/-- C5: with exactly one retrieval backend unavailable, the retriever still
answers: the degraded flag is raised and the candidate list equals — modulo
score normalization — what the remaining backend's retrieval alone would
produce (same pages in the same order with the same snippets and texts). -/
theorem degraded_single_backend (wv wt : ℚ) (k : Nat) (t : List RetrievalHit) :
    ((hybridRetrieveAvail wv wt k none (some t)).degraded = true ∧
      (hybridRetrieveAvail wv wt k none (some t)).candidates.map stripScore =
        (backendAlone k t).map stripScore) ∧
    ((hybridRetrieveAvail wv wt k (some t) none).degraded = true ∧
      (hybridRetrieveAvail wv wt k (some t) none).candidates.map stripScore =
        (backendAlone k t).map stripScore) := by
  constructor <;> refine ⟨rfl, ?_⟩ <;>
  · show ((rankPages (normalizeHits t)).take k).map stripScore =
      ((rankPages t).take k).map stripScore
    rw [List.map_take, List.map_take, rankPages_normalizeHits_strip]

end Chatbot
